import Mathlib

/-!
Shallow embedding of the transcript-acquisition core of the
`obsidian-yt-video-summarizer` plugin (file `src/services/youtube.ts`,
which exists in two revisions in the repository, together with the
regex constants of `src/constants.ts`).

Conventions of the embedding:
* JavaScript strings are Lean `String`s; character-level algorithms are
  written over `List Char`, the field of a `String`.
* `String.prototype.replace(/pat/g, rep)` with a literal pattern is the
  left-to-right, non-overlapping global replacement `replaceAll` below
  (matches are found on the input, never rescanning replaced output).
* JavaScript numbers of the caption timestamps are modelled as exact
  rationals `ℚ`; `parseFloat` returning `NaN` is modelled as `none`.
* Network calls (`request`) and the HTML/JSON parsing layers of
  `node-html-parser` / `JSON.parse` are oracle parameters: a fetch is a
  function `String → Except String String` (`.error` = a thrown
  exception, carrying its message) and the page-to-caption-track
  extraction is a function `String → Option (List CaptionTrack)`
  (`none` = "Failed to find player data").
* `Except String α` models a `Promise` that either resolves (`.ok`) or
  rejects with an `Error` whose `message` is the `String`.
-/

deriving instance DecidableEq for Except

namespace YT

/-- Whitespace test used by the embedding of `String.prototype.trim`
(space, tab, line feed, carriage return, vertical tab, form feed cover
every whitespace character that occurs in the payloads modelled here). -/
def isWs (c : Char) : Bool :=
  c = ' ' || c = '\t' || c = '\n' || c = '\r' || c = '\x0b' || c = '\x0c'

/-- Embedding of `String.prototype.trim` on the character list. -/
def trimList (cs : List Char) : List Char :=
  ((cs.dropWhile isWs).reverse.dropWhile isWs).reverse

/-- Embedding of `String.prototype.trim`. -/
def jsTrim (s : String) : String :=
  ⟨trimList s.data⟩

/-- One step of global replacement, with fuel: if the pattern is a
prefix of the current suffix, emit the replacement and continue after
the matched characters, otherwise keep one character.  The fuel is the
length of the string, enough because every step consumes at least one
character of a non-empty string. -/
def replaceAllAux (pat rep : List Char) : Nat → List Char → List Char
  | 0, s => s
  | _ + 1, [] => []
  | fuel + 1, c :: cs =>
    if pat.isPrefixOf (c :: cs) then
      rep ++ replaceAllAux pat rep fuel ((c :: cs).drop pat.length)
    else
      c :: replaceAllAux pat rep fuel cs

/-- Embedding of `String.prototype.replace(/pat/g, rep)` for a literal
pattern: left-to-right, non-overlapping, no rescan of the output. -/
def replaceAll (pat rep : List Char) (s : List Char) : List Char :=
  replaceAllAux pat rep s.length s

/-- `decodeHTML` (`youtube.ts`): six global replacements applied in
sequence — `&#39;` → `'`, `&amp;` → `&`, `&quot;` → `"`, `&apos;` → `'`,
`&lt;` → `<`, `&gt;` → `>`. -/
def decodeHTMLList (cs : List Char) : List Char :=
  let s1 := replaceAll "&#39;".data "'".data cs
  let s2 := replaceAll "&amp;".data "&".data s1
  let s3 := replaceAll "&quot;".data "\"".data s2
  let s4 := replaceAll "&apos;".data "'".data s3
  let s5 := replaceAll "&lt;".data "<".data s4
  replaceAll "&gt;".data ">".data s5

/-- `decodeHTML` lifted to `String`. -/
def decodeHTML (s : String) : String :=
  ⟨decodeHTMLList s.data⟩

/-- Embedding of `String.prototype.includes` (substring containment). -/
def containsSubstr (hay needle : List Char) : Bool :=
  match hay with
  | [] => needle.isEmpty
  | _ :: t => needle.isPrefixOf hay || containsSubstr t needle

/-- A caption track of the player response.  `baseUrl = ""` models a
missing/empty `baseUrl` (both are falsy in the `!track.baseUrl` check). -/
structure CaptionTrack where
  languageCode : String
  baseUrl : String
deriving DecidableEq, Repr

/-- Track selection of the second revision's `extractCaptions`
(`youtube.ts`, second document):
`langCode ? captionTracks.find(t => t.languageCode.includes(langCode)) || captionTracks[0] : captionTracks[0]`.
`none` models the `undefined` that triggers `throw new Error('No captions available')`. -/
def selectCaptionTrack (tracks : List CaptionTrack) (langCode : String) :
    Option CaptionTrack :=
  if langCode = "" then tracks.head?
  else
    match tracks.find? (fun t => containsSubstr t.languageCode.data langCode.data) with
    | some t => some t
    | none => tracks.head?

/-- The comparator key of the first revision's sort:
`a.languageCode && a.languageCode.includes(langCode)` (an empty
`languageCode` is falsy, short-circuiting to `false`). -/
def matchesLang (t : CaptionTrack) (langCode : String) : Bool :=
  (t.languageCode != "") && containsSubstr t.languageCode.data langCode.data

/-- The first revision's
`[...captionTracks].sort((a, b) => ...)` with the comparator keyed only
on `matchesLang`: `Array.prototype.sort` is stable, and a stable sort by
a boolean key is exactly the stable partition — tracks matching the
requested language first, each group in original order. -/
def sortTracks (tracks : List CaptionTrack) (langCode : String) : List CaptionTrack :=
  tracks.filter (fun t => matchesLang t langCode)
    ++ tracks.filter (fun t => !matchesLang t langCode)

/-- URL normalization shared by both revisions: prepend the YouTube
origin unless the track URL is already absolute. -/
def formatCaptionsUrl (baseUrl : String) : String :=
  if "https://".isPrefixOf baseUrl then baseUrl
  else "https://www.youtube.com" ++ baseUrl

/-- The first revision's per-track loop: skip tracks with a falsy
`baseUrl`; on a fetch rejection or a blank body `continue` to the next
track; return the first non-blank body; throw only when every track has
been exhausted. -/
def tryTracks (fetch : String → Except String String) :
    List CaptionTrack → Except String String
  | [] => .error "Failed to fetch captions from any available track"
  | t :: rest =>
    if t.baseUrl = "" then tryTracks fetch rest
    else
      match fetch (formatCaptionsUrl t.baseUrl) with
      | .error _ => tryTracks fetch rest
      | .ok xml => if jsTrim xml = "" then tryTracks fetch rest else .ok xml

/-- The first revision's `extractCaptions`, with the page-parsing layer
abstracted: `tracksOpt = none` models the missing player script. -/
def extractCaptionsV1 (tracksOpt : Option (List CaptionTrack))
    (fetch : String → Except String String) (langCode : String) :
    Except String String :=
  match tracksOpt with
  | none => .error "Failed to find player data"
  | some tracks =>
    if tracks.length = 0 then .error "No captions available"
    else tryTracks fetch (sortTracks tracks langCode)

/-- The second revision's `extractCaptions`: select one track (or the
first), then fetch its URL once, with no emptiness check on the body. -/
def extractCaptionsV2 (tracksOpt : Option (List CaptionTrack))
    (fetch : String → Except String String) (langCode : String) :
    Except String String :=
  match tracksOpt with
  | none => .error "Failed to find player data"
  | some tracks =>
    match selectCaptionTrack tracks langCode with
    | none => .error "No captions available"
    | some t => fetch (formatCaptionsUrl t.baseUrl)

/-- Capture of `([^"]+)"`: the greedy run of non-quote characters,
valid only when non-empty and followed by a closing quote.  (No
backtracking can help: shortening the run leaves a non-quote character
where the closing quote is required.) -/
def captureNonQuote (cs : List Char) : Option (List Char) :=
  let body := cs.takeWhile (fun c => c != '"')
  if body.isEmpty then none
  else
    match cs.drop body.length with
    | '"' :: _ => some body
    | _ => none

/-- Left-to-right scan for the first position where `key` is followed by
a `([^"]+)"` capture — the JS `text.match(regex)` of `extractMatch` for
the metadata regexes. -/
def findQuotedField (key : List Char) : List Char → Option (List Char)
  | [] => none
  | c :: cs =>
    match (if key.isPrefixOf (c :: cs) then captureNonQuote ((c :: cs).drop key.length) else none) with
    | some r => some r
    | none => findQuotedField key cs

/-- The literal part of the metadata regexes `/"key":"([^"]+)"/`. -/
def fieldPattern (key : String) : List Char :=
  '"' :: key.data ++ ['"', ':', '"']

/-- `extractMatch(text, /"key":"([^"]+)"/)` for
`TITLE_REGEX` (`key = "title"`), `AUTHOR_REGEX` (`key = "author"`) and
`CHANNEL_ID_REGEX` (`key = "channelId"`) of `constants.ts`. -/
def extractField (key : String) (text : String) : Option String :=
  (findQuotedField (fieldPattern key) text.data).map fun cs => ⟨cs⟩

/-- The character class `[a-zA-Z0-9_-]` of `VIDEO_ID_REGEX`
(`constants.ts`). -/
def isIdChar (c : Char) : Bool :=
  ('a' ≤ c && c ≤ 'z') || ('A' ≤ c && c ≤ 'Z') || ('0' ≤ c && c ≤ '9')
    || c = '_' || c = '-'

/-- `[a-zA-Z0-9_-]{11}`: exactly `n` consecutive class characters,
captured. -/
def grabId : Nat → List Char → Option (List Char)
  | 0, _ => some []
  | _ + 1, [] => none
  | n + 1, c :: cs => if isIdChar c then (grabId n cs).map (c :: ·) else none

/-- One anchored attempt of `VIDEO_ID_REGEX = /(?:v=|\/)([a-zA-Z0-9_-]{11})/`
at the head of `cs`: the alternation tries `v=` then `/` (at a given
position at most one alternative can start, as their first characters
differ), then the 11-character class run is captured. -/
def tryMatchVideoId (cs : List Char) : Option (List Char) :=
  match cs with
  | [] => none
  | c :: rest =>
    if c = 'v' then
      match rest with
      | [] => none
      | c2 :: rest2 => if c2 = '=' then grabId 11 rest2 else none
    else if c = '/' then grabId 11 rest
    else none

/-- The regex scan: try each start position left to right, returning the
capture group of the leftmost match — `url.match(VIDEO_ID_REGEX)[1]`. -/
def findVideoId : List Char → Option (List Char)
  | [] => none
  | c :: cs =>
    match tryMatchVideoId (c :: cs) with
    | some r => some r
    | none => findVideoId cs

/-- `extractMatch(url, VIDEO_ID_REGEX)`: `none` models the `null` that
triggers `throw new Error('Invalid YouTube URL')`. -/
def extractVideoId (s : String) : Option String :=
  (findVideoId s.data).map fun cs => ⟨cs⟩

/-- Digit-string denotation, most significant first. -/
def digitsToNat (cs : List Char) : Nat :=
  cs.foldl (fun n c => 10 * n + (c.toNat - '0'.toNat)) 0

/-- The optional exponent part of a `parseFloat` numeral (`e`/`E`,
optional sign, digits; an exponent marker not followed by digits is not
part of the parsed prefix and contributes a factor of one). -/
def parseExpQ (cs : List Char) : Int :=
  match cs with
  | [] => 0
  | c :: rest =>
    if c = 'e' || c = 'E' then
      match rest with
      | [] => 0
      | c2 :: rest2 =>
        if c2 = '-' then
          let d := rest2.takeWhile Char.isDigit
          if d.isEmpty then 0 else -(digitsToNat d : Int)
        else if c2 = '+' then
          let d := rest2.takeWhile Char.isDigit
          if d.isEmpty then 0 else (digitsToNat d : Int)
        else
          let d := (c2 :: rest2).takeWhile Char.isDigit
          if d.isEmpty then 0 else (digitsToNat d : Int)
    else 0

/-- The optional sign of a `parseFloat` numeral: `-` sets the negative
flag, `+` is skipped, anything else is left in place. -/
def splitSign (cs : List Char) : Bool × List Char :=
  match cs with
  | [] => (false, [])
  | c :: r => if c = '-' then (true, r) else if c = '+' then (false, r) else (false, c :: r)

/-- The optional fraction of a `parseFloat` numeral: after a decimal
point, the digit run is the fraction and the rest follows; with no
point, the fraction is empty. -/
def splitFrac (r1 : List Char) : List Char × List Char :=
  match r1 with
  | [] => ([], [])
  | c :: r =>
    if c = '.' then (r.takeWhile Char.isDigit, r.drop (r.takeWhile Char.isDigit).length)
    else ([], r1)

/-- `parseFloat` on the decimal numerals occurring in caption
timestamps, with the JavaScript number replaced by an exact rational:
leading whitespace skipped, optional sign, integer digits, optional
fraction, optional exponent; the longest valid prefix is parsed and
trailing garbage is ignored; `none` models `NaN` (no digits at all).
(The non-finite `Infinity` literal has no rational value and is not a
caption timestamp; it is out of scope of this embedding.) -/
def parseFloatL (l : List Char) : Option ℚ :=
  let signed := splitSign (l.dropWhile isWs)
  let ip := signed.2.takeWhile Char.isDigit
  let fpr := splitFrac (signed.2.drop ip.length)
  if ip.isEmpty && fpr.1.isEmpty then none
  else
    let mag : ℚ :=
      ((digitsToNat ip : ℚ) + (digitsToNat fpr.1 : ℚ) / (10 : ℚ) ^ fpr.1.length)
        * (10 : ℚ) ^ parseExpQ fpr.2
    some (if signed.1 then -mag else mag)

/-- `parseFloat` lifted to `String` (see `parseFloatL`). -/
def parseFloatQ (s : String) : Option ℚ :=
  parseFloatL s.data

/-- A `<text ...>` element of the caption XML as produced by the HTML
parser: its text content and the raw `start`/`dur` attribute strings
(`""` when the attribute is absent — `parseFloat` yields `NaN` on both). -/
structure Cue where
  textContent : String
  start : String
  dur : String
deriving DecidableEq, Repr

/-- A parsed transcript line; `none` in a time field models the `NaN`
produced by `parseFloat` on a malformed attribute. -/
structure TranscriptLine where
  text : String
  duration : Option ℚ
  offset : Option ℚ
deriving DecidableEq, Repr

/-- `parseCaptions` (identical in both revisions), on the cue list the
XML parser yields in document order:
`{ text: decodeHTML(cue.textContent), duration: parseFloat(dur) * 1000, offset: parseFloat(start) * 1000 }`. -/
def parseCaptions (cues : List Cue) : List TranscriptLine :=
  cues.map fun cue =>
    { text := decodeHTML cue.textContent
      duration := (parseFloatQ cue.dur).map (· * 1000)
      offset := (parseFloatQ cue.start).map (· * 1000) }

/-- The response object built by `fetchTranscript`. -/
structure TranscriptResponse where
  url : String
  videoId : String
  title : String
  author : String
  channelUrl : String
  lines : List TranscriptLine
deriving DecidableEq, Repr

/-- `channelId ? "https://www.youtube.com/channel/" + channelId : ''`
(the capture `[^"]+` is never empty, so `none` is the only falsy case). -/
def channelUrlOf (channelId : Option String) : String :=
  match channelId with
  | some cid => "https://www.youtube.com/channel/" ++ cid
  | none => ""

/-- Outcome of the first revision's retry loop: on success, the
non-blank captions together with the page body of the succeeding
attempt (the loop `break`s, so `videoPageBody` holds exactly that
body); `lastError` is the last recorded error; `used` counts the
attempts actually executed. -/
structure AttemptResult where
  success : Option (String × String)
  lastError : Option String
  used : Nat
deriving DecidableEq, Repr

/-- The first revision's `for (let attempt = 1; attempt <= 3; attempt++)`
loop: each attempt refetches the page (`pageAt n`), runs
`extractCaptions` on it (with that attempt's caption-fetch oracle
`fetchAt n`), breaks on non-blank captions, and otherwise records the
error (`'Empty captions received'` for blank captions) and continues.
`fuel` is the number of attempts remaining, `n` the current attempt
index. -/
def attemptLoop (pageAt : Nat → Except String String)
    (tracksOf : String → Option (List CaptionTrack))
    (fetchAt : Nat → String → Except String String)
    (langCode : String) : Nat → Nat → Option String → AttemptResult
  | 0, _, lastErr => ⟨none, lastErr, 0⟩
  | fuel + 1, n, lastErr =>
    match pageAt n with
    | .error e =>
      let r := attemptLoop pageAt tracksOf fetchAt langCode fuel (n + 1) (some e)
      { r with used := r.used + 1 }
    | .ok b =>
      match extractCaptionsV1 (tracksOf b) (fetchAt n) langCode with
      | .ok caps =>
        if jsTrim caps = "" then
          let r := attemptLoop pageAt tracksOf fetchAt langCode fuel (n + 1)
            (some "Empty captions received")
          { r with used := r.used + 1 }
        else ⟨some (caps, b), lastErr, 1⟩
      | .error e =>
        let r := attemptLoop pageAt tracksOf fetchAt langCode fuel (n + 1) (some e)
        { r with used := r.used + 1 }

/-- `lastError?.message` in the final error template: `undefined` when
no error was recorded. -/
def lastErrMsg (e : Option String) : String :=
  e.getD "undefined"

/-- The first revision's `fetchTranscript`: extract the video id (throw
`'Invalid YouTube URL'` otherwise), run up to 3 caption attempts, throw
after exhaustion, else extract the metadata from the successful page
body and build the response.  The outer `catch` wraps every thrown
message in `'Failed to fetch transcript: '`. -/
def fetchTranscriptV1 (url langCode : String)
    (pageAt : Nat → Except String String)
    (tracksOf : String → Option (List CaptionTrack))
    (fetchAt : Nat → String → Except String String)
    (xmlCues : String → List Cue) : Except String TranscriptResponse :=
  match extractVideoId url with
  | none => .error ("Failed to fetch transcript: " ++ "Invalid YouTube URL")
  | some videoId =>
    let r := attemptLoop pageAt tracksOf fetchAt langCode 3 1 none
    match r.success with
    | none =>
      .error ("Failed to fetch transcript: " ++
        "No captions available after 3 attempts. Last error: " ++ lastErrMsg r.lastError)
    | some (caps, b) =>
      .ok { url := url
            videoId := videoId
            title := decodeHTML ((extractField "title" b).getD "Unknown")
            author := decodeHTML ((extractField "author" b).getD "Unknown")
            channelUrl := channelUrlOf (extractField "channelId" b)
            lines := parseCaptions (xmlCues caps) }

/-- The second revision's `fetchTranscript`: extract the video id, fetch
the page once, extract the metadata, then try `extractCaptions`; a
caption failure is caught and yields the same response with
`lines: []` instead of propagating. -/
def fetchTranscriptV2 (url langCode : String)
    (request : String → Except String String)
    (pageTracks : String → Option (List CaptionTrack))
    (xmlCues : String → List Cue) : Except String TranscriptResponse :=
  match extractVideoId url with
  | none => .error ("Failed to fetch transcript: " ++ "Invalid YouTube URL")
  | some videoId =>
    match request url with
    | .error e => .error ("Failed to fetch transcript: " ++ e)
    | .ok body =>
      let title := extractField "title" body
      let author := extractField "author" body
      let channelId := extractField "channelId" body
      match extractCaptionsV2 (pageTracks body) request langCode with
      | .ok captions =>
        .ok { url := url
              videoId := videoId
              title := decodeHTML (title.getD "Unknown")
              author := decodeHTML (author.getD "Unknown")
              channelUrl := channelUrlOf channelId
              lines := parseCaptions (xmlCues captions) }
      | .error _ =>
        .ok { url := url
              videoId := videoId
              title := decodeHTML (title.getD "Unknown")
              author := decodeHTML (author.getD "Unknown")
              channelUrl := channelUrlOf channelId
              lines := [] }

/-- Whether attempt `n` of the first revision's retry loop obtains
non-blank captions: the page request resolves, `extractCaptions`
resolves, and the captions are not blank. -/
def attemptOk (pageAt : Nat → Except String String)
    (tracksOf : String → Option (List CaptionTrack))
    (fetchAt : Nat → String → Except String String)
    (langCode : String) (n : Nat) : Bool :=
  match pageAt n with
  | .error _ => false
  | .ok b =>
    match extractCaptionsV1 (tracksOf b) (fetchAt n) langCode with
    | .ok caps => jsTrim caps != ""
    | .error _ => false

/-- Whether a single track yields captions in the first revision's
per-track loop: a truthy `baseUrl` whose fetch resolves with a
non-blank body. -/
def goodTrack (fetch : String → Except String String) (t : CaptionTrack) : Bool :=
  (t.baseUrl != "") &&
    (match fetch (formatCaptionsUrl t.baseUrl) with
     | .ok xml => jsTrim xml != ""
     | .error _ => false)

/-- Declarative reading of one anchored `VIDEO_ID_REGEX` match: `cs`
starts with `v=` or `/` immediately followed by the 11 captured
characters of the ID alphabet. -/
def hasIdToken (cs id : List Char) : Prop :=
  id.length = 11 ∧ (∀ c ∈ id, isIdChar c = true) ∧
    ∃ rest, cs = 'v' :: '=' :: (id ++ rest) ∨ cs = '/' :: (id ++ rest)

/-- Concrete caption-fetch oracle of the C10 witness: one url resolves
with content, every other rejects. -/
def fetchW (u : String) : Except String String :=
  if u = "https://www.youtube.com/good" then .ok "<xml>" else .error "net"

/-! ## Sanity checks of the embedding on the source's own examples -/

example : decodeHTML "Hello &amp; World" = "Hello & World" := by decide
example : containsSubstr "en-US".data "en".data = true := by decide
example : containsSubstr "fr".data "en".data = false := by decide
example : extractField "title" "xx\"title\":\"Hello\"yy" = some "Hello" := by decide
example : extractVideoId "https://www.youtube.com/watch?v=dQw4w9WgXcQ" = some "dQw4w9WgXcQ" := by
  decide
example : extractVideoId "https://youtu.be/dQw4w9WgXcQ" = some "dQw4w9WgXcQ" := by decide
example : extractVideoId "not a video link" = none := by decide
example : parseFloatQ "0.5" = some (1 / 2) := by
  simp +decide [parseFloatQ, parseFloatL, splitSign, splitFrac, parseExpQ, isWs,
    digitsToNat, List.takeWhile, List.dropWhile]
  norm_num

/-! ## Helper lemmas -/

/-- A global replacement whose pattern starts with `&` leaves an
ampersand-free string unchanged. -/
theorem replaceAllAux_no_amp (pat rep : List Char) (hpat : pat.head? = some '&') :
    ∀ (fuel : Nat) (cs : List Char), '&' ∉ cs → replaceAllAux pat rep fuel cs = cs := by
  intro fuel
  induction fuel with
  | zero => intro cs _; rfl
  | succ n ih =>
    intro cs h
    cases cs with
    | nil => rfl
    | cons c cs' =>
      have hc : ¬(c = '&') := by
        intro hc
        exact h (by simp [hc])
      have hmem : '&' ∉ cs' := fun hm => h (List.mem_cons_of_mem _ hm)
      have hpre : pat.isPrefixOf (c :: cs') = false := by
        cases pat with
        | nil => simp at hpat
        | cons p ps =>
          have hp : p = '&' := by simpa using hpat
          subst hp
          simp only [List.isPrefixOf, Bool.and_eq_false_iff, beq_eq_false_iff_ne, ne_eq]
          exact Or.inl (fun hpc => hc hpc.symm)
      simp [replaceAllAux, hpre, ih cs' hmem]

/-- `decodeHTML` fixes every ampersand-free character list. -/
theorem decodeHTMLList_no_amp (cs : List Char) (h : '&' ∉ cs) :
    decodeHTMLList cs = cs := by
  simp only [decodeHTMLList, replaceAll]
  rw [replaceAllAux_no_amp "&#39;".data "'".data rfl _ cs h,
    replaceAllAux_no_amp "&amp;".data "&".data rfl _ cs h,
    replaceAllAux_no_amp "&quot;".data "\"".data rfl _ cs h,
    replaceAllAux_no_amp "&apos;".data "'".data rfl _ cs h,
    replaceAllAux_no_amp "&lt;".data "<".data rfl _ cs h,
    replaceAllAux_no_amp "&gt;".data ">".data rfl _ cs h]

/-! ## C1 — caption track resolution priority -/

/-- C1, counterexample: on tracks `[fr-CA, fr]` with requested language
`fr`, the resolver returns the `fr-CA` track by substring containment,
although an exact `languageCode` match (`fr`) is present in the list —
the claimed exact-match-first priority does not hold. -/
theorem C1_counterexample :
    selectCaptionTrack [⟨"fr-CA", "u1"⟩, ⟨"fr", "u2"⟩] "fr" = some ⟨"fr-CA", "u1"⟩
      ∧ (⟨"fr", "u2"⟩ : CaptionTrack) ∈ [(⟨"fr-CA", "u1"⟩ : CaptionTrack), ⟨"fr", "u2"⟩]
      ∧ (⟨"fr", "u2"⟩ : CaptionTrack).languageCode = "fr"
      ∧ (⟨"fr-CA", "u1"⟩ : CaptionTrack).languageCode ≠ "fr" := by
  decide

/-- C1, amended: for a non-empty requested language the resolver is
deterministic and returns the first track whose `languageCode` contains
the requested language as a substring; when no track's code contains it,
the first track of a non-empty list; `none` on an empty list. -/
theorem C1_selectCaptionTrack_spec (tracks : List CaptionTrack) (lang : String)
    (hl : lang ≠ "") :
    (tracks = [] → selectCaptionTrack tracks lang = none)
      ∧ (∀ pre t post, tracks = pre ++ t :: post →
          containsSubstr t.languageCode.data lang.data = true →
          (∀ u ∈ pre, containsSubstr u.languageCode.data lang.data = false) →
          selectCaptionTrack tracks lang = some t)
      ∧ ((∀ u ∈ tracks, containsSubstr u.languageCode.data lang.data = false) →
          selectCaptionTrack tracks lang = tracks.head?) := by
  refine ⟨?_, ?_, ?_⟩
  · rintro rfl
    simp [selectCaptionTrack, hl]
  · rintro pre t post rfl ht hpre
    have hfind : (pre ++ t :: post).find?
        (fun u => containsSubstr u.languageCode.data lang.data) = some t := by
      induction pre with
      | nil => simp [List.find?_cons, ht]
      | cons u us ih =>
        have hu := hpre u (by simp)
        simp only [List.cons_append, List.find?_cons, hu]
        exact ih (fun v hv => hpre v (by simp [hv]))
    simp [selectCaptionTrack, hl, hfind]
  · intro hall
    have hfind : tracks.find?
        (fun u => containsSubstr u.languageCode.data lang.data) = none := by
      rw [List.find?_eq_none]
      intro a ha
      simp [hall a ha]
    simp [selectCaptionTrack, hl, hfind]

/-- C1, witness: the two resolutions named by the specification —
requested `en` on `[en-US, fr]` yields `en-US`, and requested `en` on
`[fr, de]` falls back to the first track `fr`. -/
theorem C1_witness :
    selectCaptionTrack [⟨"en-US", "u"⟩, ⟨"fr", "v"⟩] "en" = some ⟨"en-US", "u"⟩
      ∧ selectCaptionTrack [⟨"fr", "a"⟩, ⟨"de", "b"⟩] "en" = some ⟨"fr", "a"⟩ := by
  constructor
  · exact (C1_selectCaptionTrack_spec [⟨"en-US", "u"⟩, ⟨"fr", "v"⟩] "en"
      (by decide)).2.1 [] ⟨"en-US", "u"⟩ [⟨"fr", "v"⟩] rfl (by decide) (by simp)
  · have h := (C1_selectCaptionTrack_spec [⟨"fr", "a"⟩, ⟨"de", "b"⟩] "en"
      (by decide)).2.2 (by decide)
    simpa using h

/-! ## C4 — idempotence of the HTML-entity decoder -/

/-- C4, counterexample: `decodeHTML` is not idempotent — decoding
`&amp;amp;` once yields `&amp;`, and decoding again yields `&`. -/
theorem C4_counterexample :
    decodeHTML (decodeHTML "&amp;amp;") ≠ decodeHTML "&amp;amp;"
      ∧ decodeHTML "&amp;amp;" = "&amp;"
      ∧ decodeHTML (decodeHTML "&amp;amp;") = "&" := by
  decide

/-- C4, amended: the decoder is idempotent on inputs whose decoding
contains no ampersand (in particular on already-decoded entity-free
text); it is not idempotent in general. -/
theorem C4_decodeHTML_idem_of_amp_free (s : String)
    (h : '&' ∉ (decodeHTML s).data) :
    decodeHTML (decodeHTML s) = decodeHTML s := by
  show (⟨decodeHTMLList (decodeHTML s).data⟩ : String) = decodeHTML s
  rw [decodeHTMLList_no_amp _ h]

/-- C4, witness: the amended idempotence at the concrete decoded-free
input `a&lt;b` (whose decoding `a<b` is ampersand-free). -/
theorem C4_witness : decodeHTML (decodeHTML "a&lt;b") = decodeHTML "a&lt;b" :=
  C4_decodeHTML_idem_of_amp_free "a&lt;b" (by decide)

/-! ## C2 — zero caption tracks yield an empty-lines transcript -/

/-- C2: in the second revision, when the watch page resolves and its
player data carries an empty caption-track list, `fetchTranscript` does
not reject: it resolves with the metadata fields populated and
`lines = []`. -/
theorem C2_fetchTranscriptV2_no_tracks (url langCode vid body : String)
    (request : String → Except String String)
    (pageTracks : String → Option (List CaptionTrack))
    (xmlCues : String → List Cue)
    (h1 : extractVideoId url = some vid)
    (h2 : request url = .ok body)
    (h3 : pageTracks body = some []) :
    fetchTranscriptV2 url langCode request pageTracks xmlCues
      = .ok { url := url, videoId := vid,
              title := decodeHTML ((extractField "title" body).getD "Unknown"),
              author := decodeHTML ((extractField "author" body).getD "Unknown"),
              channelUrl := channelUrlOf (extractField "channelId" body),
              lines := [] } := by
  have hsel : selectCaptionTrack [] langCode = none := by
    simp [selectCaptionTrack]
  simp [fetchTranscriptV2, h1, h2, extractCaptionsV2, h3, hsel]

/-- C2, witness: a concrete page with no player data fields and zero
caption tracks resolves with `Unknown` metadata and empty lines. -/
theorem C2_witness :
    fetchTranscriptV2 "https://youtu.be/dQw4w9WgXcQ" "en"
        (fun _ => .ok "nobody") (fun _ => some []) (fun _ => [])
      = .ok { url := "https://youtu.be/dQw4w9WgXcQ", videoId := "dQw4w9WgXcQ",
              title := "Unknown", author := "Unknown", channelUrl := "",
              lines := [] } := by
  have h := C2_fetchTranscriptV2_no_tracks "https://youtu.be/dQw4w9WgXcQ" "en"
    "dQw4w9WgXcQ" "nobody" (fun _ => .ok "nobody") (fun _ => some []) (fun _ => [])
    (by decide) rfl rfl
  rw [h]
  decide

/-! ## C8 — invalid URLs fail immediately, but wrapped, not verbatim -/

/-- C8, counterexample: on an input with no video id token the call
rejects immediately, but the surfaced message is the wrapped
`Failed to fetch transcript: Invalid YouTube URL`, not the verbatim
inner `Invalid YouTube URL`. -/
theorem C8_counterexample :
    fetchTranscriptV1 "no video here" "en" (fun _ => .ok "body") (fun _ => none)
        (fun _ _ => .error "net") (fun _ => [])
      = .error "Failed to fetch transcript: Invalid YouTube URL"
      ∧ ("Failed to fetch transcript: Invalid YouTube URL" : String)
          ≠ "Invalid YouTube URL" := by
  decide

/-- C8, amended: when no video id can be extracted, both revisions of
`fetchTranscript` reject with `'Invalid YouTube URL'` wrapped in the
`'Failed to fetch transcript: '` prefix, for every behaviour of the
network and parsing oracles — so the failure is decided before any page
fetch and no retry attempt can influence it. -/
theorem C8_invalid_url_wrapped (url langCode : String)
    (h : extractVideoId url = none)
    (pageAt : Nat → Except String String)
    (tracksOf : String → Option (List CaptionTrack))
    (fetchAt : Nat → String → Except String String)
    (request : String → Except String String)
    (pageTracks : String → Option (List CaptionTrack))
    (xmlCues xmlCues2 : String → List Cue) :
    fetchTranscriptV1 url langCode pageAt tracksOf fetchAt xmlCues
        = .error ("Failed to fetch transcript: " ++ "Invalid YouTube URL")
      ∧ fetchTranscriptV2 url langCode request pageTracks xmlCues2
        = .error ("Failed to fetch transcript: " ++ "Invalid YouTube URL") := by
  constructor <;> simp [fetchTranscriptV1, fetchTranscriptV2, h]

/-- C8, witness: the wrapped failure at the concrete non-URL input
`hello world`, with concrete oracles (whose behaviour is irrelevant). -/
theorem C8_witness :
    fetchTranscriptV1 "hello world" "en" (fun _ => .ok "b") (fun _ => some [])
        (fun _ _ => .error "x") (fun _ => [])
      = .error ("Failed to fetch transcript: " ++ "Invalid YouTube URL") :=
  (C8_invalid_url_wrapped "hello world" "en" (by decide) (fun _ => .ok "b")
    (fun _ => some []) (fun _ _ => .error "x") (fun _ => .ok "b")
    (fun _ => some []) (fun _ => []) (fun _ => [])).1

/-! ## C9 — missing metadata never fails a successful caption fetch -/

/-- C9: in the first revision, when the first attempt obtains non-blank
captions but none of the title/author/channel-id patterns match the
page body, `fetchTranscript` still resolves, with `Unknown` title and
author and an empty channel URL. -/
theorem C9_metadata_fallback (url langCode vid b caps : String)
    (pageAt : Nat → Except String String)
    (tracksOf : String → Option (List CaptionTrack))
    (fetchAt : Nat → String → Except String String)
    (xmlCues : String → List Cue)
    (hvid : extractVideoId url = some vid)
    (hb : pageAt 1 = .ok b)
    (hcaps : extractCaptionsV1 (tracksOf b) (fetchAt 1) langCode = .ok caps)
    (hne : jsTrim caps ≠ "")
    (htitle : extractField "title" b = none)
    (hauthor : extractField "author" b = none)
    (hchan : extractField "channelId" b = none) :
    fetchTranscriptV1 url langCode pageAt tracksOf fetchAt xmlCues
      = .ok { url := url, videoId := vid, title := "Unknown", author := "Unknown",
              channelUrl := "", lines := parseCaptions (xmlCues caps) } := by
  have hloop : attemptLoop pageAt tracksOf fetchAt langCode 3 1 none
      = ⟨some (caps, b), none, 1⟩ := by
    simp [attemptLoop, hb, hcaps, hne]
  have hunk : decodeHTML "Unknown" = "Unknown" := by decide
  simp [fetchTranscriptV1, hvid, hloop, htitle, hauthor, hchan, channelUrlOf, hunk]

/-- C9, witness: a concrete run whose page body matches no metadata
pattern still resolves with `Unknown`/`Unknown`/empty channel URL. -/
theorem C9_witness :
    fetchTranscriptV1 "https://youtu.be/dQw4w9WgXcQ" "en"
        (fun _ => .ok "pagebody") (fun _ => some [⟨"en", "/u"⟩])
        (fun _ _ => .ok "xmlpayload") (fun _ => [])
      = .ok { url := "https://youtu.be/dQw4w9WgXcQ", videoId := "dQw4w9WgXcQ",
              title := "Unknown", author := "Unknown", channelUrl := "",
              lines := [] } := by
  have h := C9_metadata_fallback "https://youtu.be/dQw4w9WgXcQ" "en" "dQw4w9WgXcQ"
    "pagebody" "xmlpayload" (fun _ => .ok "pagebody") (fun _ => some [⟨"en", "/u"⟩])
    (fun _ _ => .ok "xmlpayload") (fun _ => [])
    (by decide) rfl (by decide) (by decide) (by decide) (by decide) (by decide)
  simpa [parseCaptions] using h

/-! ## C3 — bounded retries, success on the first good attempt -/

/-- The retry loop never executes more attempts than its fuel. -/
theorem attemptLoop_used_le (pageAt : Nat → Except String String)
    (tracksOf : String → Option (List CaptionTrack))
    (fetchAt : Nat → String → Except String String) (langCode : String) :
    ∀ (fuel n : Nat) (le : Option String),
      (attemptLoop pageAt tracksOf fetchAt langCode fuel n le).used ≤ fuel := by
  intro fuel
  induction fuel with
  | zero => intro n le; simp [attemptLoop]
  | succ m ih =>
    intro n le
    simp only [attemptLoop]
    cases hp : pageAt n with
    | error e => simpa using Nat.succ_le_succ (ih (n + 1) (some e))
    | ok b =>
      cases hc : extractCaptionsV1 (tracksOf b) (fetchAt n) langCode with
      | ok caps =>
        by_cases ht : jsTrim caps = ""
        · simpa [hc, ht] using Nat.succ_le_succ (ih (n + 1) (some "Empty captions received"))
        · simp [hc, ht]
      | error e => simpa [hc] using Nat.succ_le_succ (ih (n + 1) (some e))

/-- If attempt `n + j` is the first to obtain non-blank captions, the
loop breaks there, returning those captions with the body of that
attempt, having executed exactly `j + 1` attempts. -/
theorem attemptLoop_first_success (pageAt : Nat → Except String String)
    (tracksOf : String → Option (List CaptionTrack))
    (fetchAt : Nat → String → Except String String) (langCode : String) :
    ∀ (j fuel n : Nat) (le : Option String), j < fuel →
      attemptOk pageAt tracksOf fetchAt langCode (n + j) = true →
      (∀ i < j, attemptOk pageAt tracksOf fetchAt langCode (n + i) = false) →
      ∃ caps b le2,
        attemptLoop pageAt tracksOf fetchAt langCode fuel n le
            = ⟨some (caps, b), le2, j + 1⟩
          ∧ pageAt (n + j) = .ok b
          ∧ extractCaptionsV1 (tracksOf b) (fetchAt (n + j)) langCode = .ok caps
          ∧ jsTrim caps ≠ "" := by
  intro j
  induction j with
  | zero =>
    intro fuel n le hf hok _
    obtain ⟨m, rfl⟩ : ∃ m, fuel = m + 1 := ⟨fuel - 1, by omega⟩
    simp only [Nat.add_zero] at hok
    cases hp : pageAt n with
    | error e => simp [attemptOk, hp] at hok
    | ok b =>
      cases hc : extractCaptionsV1 (tracksOf b) (fetchAt n) langCode with
      | error e => simp [attemptOk, hp, hc] at hok
      | ok caps =>
        have ht : jsTrim caps ≠ "" := by simpa [attemptOk, hp, hc] using hok
        exact ⟨caps, b, le, by simp [attemptLoop, hp, hc, ht], by simpa using hp,
          by simpa using hc, ht⟩
  | succ k ih =>
    intro fuel n le hf hok hbefore
    obtain ⟨m, rfl⟩ : ∃ m, fuel = m + 1 := ⟨fuel - 1, by omega⟩
    have h0 : attemptOk pageAt tracksOf fetchAt langCode n = false := by
      simpa using hbefore 0 (by omega)
    have hok' : attemptOk pageAt tracksOf fetchAt langCode ((n + 1) + k) = true := by
      rw [show (n + 1) + k = n + (k + 1) by omega]
      exact hok
    have hbefore' : ∀ i < k,
        attemptOk pageAt tracksOf fetchAt langCode ((n + 1) + i) = false := by
      intro i hi
      rw [show (n + 1) + i = n + (i + 1) by omega]
      exact hbefore (i + 1) (by omega)
    cases hp : pageAt n with
    | error e =>
      obtain ⟨caps, b, le2, hrec, h1, h2, h3⟩ :=
        ih m (n + 1) (some e) (by omega) hok' hbefore'
      refine ⟨caps, b, le2, ?_, by simpa [show (n + 1) + k = n + (k + 1) by omega] using h1,
        by simpa [show (n + 1) + k = n + (k + 1) by omega] using h2, h3⟩
      simp [attemptLoop, hp, hrec]
    | ok b =>
      cases hc : extractCaptionsV1 (tracksOf b) (fetchAt n) langCode with
      | ok caps =>
        have ht : jsTrim caps = "" := by
          by_contra hne
          simp [attemptOk, hp, hc, hne] at h0
        obtain ⟨caps2, b2, le2, hrec, h1, h2, h3⟩ :=
          ih m (n + 1) (some "Empty captions received") (by omega) hok' hbefore'
        refine ⟨caps2, b2, le2, ?_, by simpa [show (n + 1) + k = n + (k + 1) by omega] using h1,
          by simpa [show (n + 1) + k = n + (k + 1) by omega] using h2, h3⟩
        simp [attemptLoop, hp, hc, ht, hrec]
      | error e =>
        obtain ⟨caps2, b2, le2, hrec, h1, h2, h3⟩ :=
          ih m (n + 1) (some e) (by omega) hok' hbefore'
        refine ⟨caps2, b2, le2, ?_, by simpa [show (n + 1) + k = n + (k + 1) by omega] using h1,
          by simpa [show (n + 1) + k = n + (k + 1) by omega] using h2, h3⟩
        simp [attemptLoop, hp, hc, hrec]

/-- C3: the retry loop executes at most 3 attempts for every oracle
behaviour, and when attempt `k ≤ 3` is the first to yield non-blank
captions the loop stops right there (exactly `k` attempts) and
`fetchTranscript` resolves without surfacing an error. -/
theorem C3_retry_budget (url langCode vid : String) (k : Nat)
    (pageAt : Nat → Except String String)
    (tracksOf : String → Option (List CaptionTrack))
    (fetchAt : Nat → String → Except String String)
    (xmlCues : String → List Cue)
    (hvid : extractVideoId url = some vid)
    (hk1 : 1 ≤ k) (hk3 : k ≤ 3)
    (hok : attemptOk pageAt tracksOf fetchAt langCode k = true)
    (hbefore : ∀ j, 1 ≤ j → j < k →
      attemptOk pageAt tracksOf fetchAt langCode j = false) :
    (∀ (n : Nat) (le : Option String),
        (attemptLoop pageAt tracksOf fetchAt langCode 3 n le).used ≤ 3)
      ∧ (attemptLoop pageAt tracksOf fetchAt langCode 3 1 none).used = k
      ∧ ∃ resp, fetchTranscriptV1 url langCode pageAt tracksOf fetchAt xmlCues
          = .ok resp := by
  have hfirst := attemptLoop_first_success pageAt tracksOf fetchAt langCode (k - 1) 3 1 none
    (by omega)
    (by rw [show 1 + (k - 1) = k by omega]; exact hok)
    (by
      intro i hi
      rw [show 1 + i = i + 1 by omega]
      exact hbefore (i + 1) (by omega) (by omega))
  obtain ⟨caps, b, le2, hloop, _, _, _⟩ := hfirst
  refine ⟨fun n le => attemptLoop_used_le pageAt tracksOf fetchAt langCode 3 n le, ?_, ?_⟩
  · rw [hloop]
    show k - 1 + 1 = k
    omega
  · exact ⟨⟨url, vid, decodeHTML ((extractField "title" b).getD "Unknown"),
      decodeHTML ((extractField "author" b).getD "Unknown"),
      channelUrlOf (extractField "channelId" b), parseCaptions (xmlCues caps)⟩,
      by simp [fetchTranscriptV1, hvid, hloop]⟩

/-- C3, witness: a transient failure — the caption body is blank on
attempt 1 and non-blank on attempt 2 — succeeds on the second attempt,
with exactly 2 attempts executed. -/
theorem C3_witness :
    (attemptLoop (fun _ => .ok "pb") (fun _ => some [⟨"en", "/u"⟩])
        (fun n _ => if n = 1 then .ok "" else .ok "xml") "en" 3 1 none).used = 2
      ∧ ∃ resp, fetchTranscriptV1 "https://youtu.be/dQw4w9WgXcQ" "en"
          (fun _ => .ok "pb") (fun _ => some [⟨"en", "/u"⟩])
          (fun n _ => if n = 1 then .ok "" else .ok "xml") (fun _ => [])
          = .ok resp :=
  (C3_retry_budget "https://youtu.be/dQw4w9WgXcQ" "en" "dQw4w9WgXcQ" 2
    (fun _ => .ok "pb") (fun _ => some [⟨"en", "/u"⟩])
    (fun n _ => if n = 1 then .ok "" else .ok "xml") (fun _ => [])
    (by decide) (by decide) (by decide) (by decide)
    (by decide)).2

/-! ## C10 — the per-track loop skips, continues and only then fails -/

/-- When every track is bad (falsy `baseUrl`, rejected fetch, or blank
body), the loop exhausts the list and throws. -/
theorem tryTracks_all_bad (fetch : String → Except String String) :
    ∀ l : List CaptionTrack, (∀ t ∈ l, goodTrack fetch t = false) →
      tryTracks fetch l = .error "Failed to fetch captions from any available track" := by
  intro l
  induction l with
  | nil => intro _; rfl
  | cons t rest ih =>
    intro h
    have ht := h t (by simp)
    have hrest := ih (fun u hu => h u (by simp [hu]))
    by_cases hb : t.baseUrl = ""
    · simp [tryTracks, hb, hrest]
    · cases hf : fetch (formatCaptionsUrl t.baseUrl) with
      | error e => simp [tryTracks, hb, hf, hrest]
      | ok xml =>
        have hblank : jsTrim xml = "" := by
          by_contra hnb
          simp [goodTrack, hb, hf, hnb] at ht
        simp [tryTracks, hb, hf, hblank, hrest]

/-- When some track is good, the loop returns the fetched body of the
first good track, skipping every earlier bad one. -/
theorem tryTracks_first_good (fetch : String → Except String String) :
    ∀ l : List CaptionTrack, (∃ t ∈ l, goodTrack fetch t = true) →
      ∃ xml t0, tryTracks fetch l = .ok xml ∧ t0 ∈ l ∧ goodTrack fetch t0 = true
        ∧ fetch (formatCaptionsUrl t0.baseUrl) = .ok xml ∧ jsTrim xml ≠ "" := by
  intro l
  induction l with
  | nil =>
    rintro ⟨t, ht, _⟩
    simp at ht
  | cons t rest ih =>
    rintro ⟨u, hu, hgood⟩
    by_cases hg : goodTrack fetch t = true
    · have hb : ¬(t.baseUrl = "") := by
        intro hb
        simp [goodTrack, hb] at hg
      cases hf : fetch (formatCaptionsUrl t.baseUrl) with
      | error e => simp [goodTrack, hb, hf] at hg
      | ok xml =>
        have hnb : jsTrim xml ≠ "" := by
          intro hnb'
          simp [goodTrack, hb, hf, hnb'] at hg
        exact ⟨xml, t, by simp [tryTracks, hb, hf, hnb], by simp, hg, hf, hnb⟩
    · have hu' : u ∈ rest := by
        rcases List.mem_cons.mp hu with h | h
        · exact absurd (h ▸ hgood) hg
        · exact h
      obtain ⟨xml, t0, hres, ht0, hg0, hf0, hnb0⟩ := ih ⟨u, hu', hgood⟩
      refine ⟨xml, t0, ?_, by simp [ht0], hg0, hf0, hnb0⟩
      by_cases hb : t.baseUrl = ""
      · simp [tryTracks, hb, hres]
      · cases hf : fetch (formatCaptionsUrl t.baseUrl) with
        | error e => simp [tryTracks, hb, hf, hres]
        | ok xml2 =>
          have hblank : jsTrim xml2 = "" := by
            by_contra hnb2
            exact hg (by simp [goodTrack, hb, hf, hnb2])
          simp [tryTracks, hb, hf, hblank, hres]

/-- The stable partition of the sort preserves membership. -/
theorem mem_sortTracks (t : CaptionTrack) (tracks : List CaptionTrack) (lang : String) :
    t ∈ sortTracks tracks lang ↔ t ∈ tracks := by
  simp only [sortTracks, List.mem_append, List.mem_filter]
  constructor
  · rintro (⟨h, _⟩ | ⟨h, _⟩) <;> exact h
  · intro h
    by_cases hm : matchesLang t lang = true
    · exact Or.inl ⟨h, hm⟩
    · exact Or.inr ⟨h, by simpa using hm⟩

/-- C10: `extractCaptions` (first revision) raises an error only after
every track in the (sorted) list has failed, and whenever at least one
track has a truthy `baseUrl` whose fetch resolves with non-blank
content, it returns the content of such a track (the first good one in
the sorted order). -/
theorem C10_extractCaptions_tries_tracks (tracks : List CaptionTrack)
    (fetch : String → Except String String) (lang : String) :
    ((∀ t ∈ tracks, goodTrack fetch t = false) → tracks ≠ [] →
      extractCaptionsV1 (some tracks) fetch lang
        = .error "Failed to fetch captions from any available track")
      ∧ (∀ t ∈ tracks, goodTrack fetch t = true →
        ∃ xml t0, extractCaptionsV1 (some tracks) fetch lang = .ok xml
          ∧ t0 ∈ tracks ∧ goodTrack fetch t0 = true
          ∧ fetch (formatCaptionsUrl t0.baseUrl) = .ok xml ∧ jsTrim xml ≠ "") := by
  constructor
  · intro hall hne
    have hlen : ¬(tracks.length = 0) := by simpa [List.length_eq_zero] using hne
    have hsorted : ∀ t ∈ sortTracks tracks lang, goodTrack fetch t = false := fun t ht =>
      hall t ((mem_sortTracks t tracks lang).mp ht)
    simp [extractCaptionsV1, hlen, tryTracks_all_bad fetch _ hsorted]
  · intro t ht hg
    have hne : ¬(tracks.length = 0) := by
      intro h0
      rw [List.length_eq_zero] at h0
      subst h0
      simp at ht
    obtain ⟨xml, t0, hres, ht0, hg0, hf0, hnb0⟩ :=
      tryTracks_first_good fetch (sortTracks tracks lang)
        ⟨t, (mem_sortTracks t tracks lang).mpr ht, hg⟩
    exact ⟨xml, t0, by simp [extractCaptionsV1, hne, hres],
      (mem_sortTracks t0 tracks lang).mp ht0, hg0, hf0, hnb0⟩

/-- C10, witness: a list with a skipped no-URL track, a failing track
and a good track yields the good track's content. -/
theorem C10_witness :
    ∃ xml t0,
      extractCaptionsV1 (some [⟨"en", ""⟩, ⟨"en", "/bad"⟩, ⟨"fr", "/good"⟩]) fetchW "en"
        = .ok xml
      ∧ t0 ∈ [(⟨"en", ""⟩ : CaptionTrack), ⟨"en", "/bad"⟩, ⟨"fr", "/good"⟩]
      ∧ goodTrack fetchW t0 = true
      ∧ fetchW (formatCaptionsUrl t0.baseUrl) = .ok xml
      ∧ jsTrim xml ≠ "" :=
  (C10_extractCaptions_tries_tracks [⟨"en", ""⟩, ⟨"en", "/bad"⟩, ⟨"fr", "/good"⟩]
    fetchW "en").2 ⟨"fr", "/good"⟩ (by decide) (by decide)

/-! ## C5 — legacy XML times are seconds scaled by 1000 -/

/-- A decimal digit is not whitespace. -/
theorem isWs_eq_false_of_isDigit {c : Char} (h : c.isDigit = true) : isWs c = false := by
  cases hw : isWs c with
  | false => rfl
  | true =>
    exfalso
    have hor : c = ' ' ∨ c = '\t' ∨ c = '\n' ∨ c = '\r' ∨ c = '\x0b' ∨ c = '\x0c' := by
      simpa [isWs, or_assoc] using hw
    rcases hor with rfl | rfl | rfl | rfl | rfl | rfl <;> exact absurd h (by decide)

/-- A decimal digit is neither a sign character nor a decimal point. -/
theorem isDigit_ne_signs {c : Char} (h : c.isDigit = true) :
    c ≠ '-' ∧ c ≠ '+' ∧ c ≠ '.' := by
  refine ⟨?_, ?_, ?_⟩ <;> rintro rfl <;> exact absurd h (by decide)

/-- `takeWhile` over a satisfying block followed by a failing head
takes exactly the block. -/
theorem takeWhile_append_block (p : Char → Bool) (a : List Char) (c : Char)
    (r : List Char) (ha : ∀ x ∈ a, p x = true) (hc : p c = false) :
    (a ++ c :: r).takeWhile p = a := by
  induction a with
  | nil => simp [List.takeWhile_cons, hc]
  | cons x xs ih =>
    have hx := ha x (by simp)
    simp only [List.cons_append, List.takeWhile_cons, hx, if_true]
    rw [ih (fun y hy => ha y (by simp [hy]))]

/-- `parseFloat` on a canonical decimal numeral `a.b` (non-empty digit
block `a`, digit block `b`): the exact rational `a + b / 10^|b|`. -/
theorem parseFloatL_decimal (a b : List Char)
    (ha : ∀ x ∈ a, x.isDigit = true) (hb : ∀ x ∈ b, x.isDigit = true)
    (hane : a ≠ []) :
    parseFloatL (a ++ '.' :: b)
      = some ((digitsToNat a : ℚ) + (digitsToNat b : ℚ) / (10 : ℚ) ^ b.length) := by
  have hdrop : (a ++ '.' :: b).dropWhile isWs = a ++ '.' :: b := by
    cases a with
    | nil => exact absurd rfl hane
    | cons x a' =>
      have hws := isWs_eq_false_of_isDigit (ha x (by simp))
      simp [List.dropWhile_cons, hws]
  have hsign : splitSign (a ++ '.' :: b) = (false, a ++ '.' :: b) := by
    cases a with
    | nil => exact absurd rfl hane
    | cons x a' =>
      obtain ⟨hxm, hxp, _⟩ := isDigit_ne_signs (ha x (by simp))
      simp [splitSign, hxm, hxp]
  have htake : (a ++ '.' :: b).takeWhile Char.isDigit = a :=
    takeWhile_append_block Char.isDigit a '.' b ha (by decide)
  have htakeb : b.takeWhile Char.isDigit = b := List.takeWhile_eq_self_iff.mpr hb
  have hsplit : splitFrac ('.' :: b) = (b, []) := by
    simp [splitFrac, htakeb, List.drop_length]
  have hempty : a.isEmpty = false := by
    cases a with
    | nil => exact absurd rfl hane
    | cons _ _ => rfl
  simp only [parseFloatL, hdrop, hsign, htake, List.drop_left, hsplit, hempty,
    Bool.false_and, Bool.false_eq_true, if_false, parseExpQ, zpow_zero, mul_one]

/-- C5: every `<text start="S" dur="D">` cue whose attributes are
canonical decimal numerals parses to a line whose offset is `S * 1000`
and whose duration is `D * 1000`, exactly (rationals, no rounding). -/
theorem C5_legacy_schema_times (cues : List Cue) (i : Nat) (cue : Cue)
    (hcue : cues[i]? = some cue)
    (a b c d : List Char)
    (hs : cue.start = ⟨a ++ '.' :: b⟩) (hd : cue.dur = ⟨c ++ '.' :: d⟩)
    (ha : ∀ x ∈ a, x.isDigit = true) (hb : ∀ x ∈ b, x.isDigit = true)
    (hc : ∀ x ∈ c, x.isDigit = true) (hdd : ∀ x ∈ d, x.isDigit = true)
    (hane : a ≠ []) (hcne : c ≠ []) :
    (parseCaptions cues)[i]? = some
      { text := decodeHTML cue.textContent
        duration := some
          (((digitsToNat c : ℚ) + (digitsToNat d : ℚ) / (10 : ℚ) ^ d.length) * 1000)
        offset := some
          (((digitsToNat a : ℚ) + (digitsToNat b : ℚ) / (10 : ℚ) ^ b.length) * 1000) } := by
  have hstart : parseFloatQ cue.start
      = some ((digitsToNat a : ℚ) + (digitsToNat b : ℚ) / (10 : ℚ) ^ b.length) := by
    rw [hs]
    exact parseFloatL_decimal a b ha hb hane
  have hdur : parseFloatQ cue.dur
      = some ((digitsToNat c : ℚ) + (digitsToNat d : ℚ) / (10 : ℚ) ^ d.length) := by
    rw [hd]
    exact parseFloatL_decimal c d hc hdd hcne
  simp [parseCaptions, List.getElem?_map, hcue, hstart, hdur]

/-- C5, witness: the source's own example cue
`<text start="0.5" dur="2.3">Hello</text>`. -/
theorem C5_witness :
    (parseCaptions [⟨"Hello", "0.5", "2.3"⟩])[(0 : Nat)]? = some
      { text := decodeHTML "Hello"
        duration := some
          (((digitsToNat ['2'] : ℚ) + (digitsToNat ['3'] : ℚ) / (10 : ℚ) ^ (1 : ℕ)) * 1000)
        offset := some
          (((digitsToNat ['0'] : ℚ) + (digitsToNat ['5'] : ℚ) / (10 : ℚ) ^ (1 : ℕ)) * 1000) } :=
  C5_legacy_schema_times [⟨"Hello", "0.5", "2.3"⟩] 0 ⟨"Hello", "0.5", "2.3"⟩ rfl
    ['0'] ['5'] ['2'] ['3'] (by decide) (by decide)
    (by decide) (by decide) (by decide) (by decide) (by decide) (by decide)

/-! ## C6 — the parsed-line invariant: decoded, but NOT trimmed -/

/-- C6, counterexample: the parser decodes but does not trim — a cue
whose text content is `" hi "` (with surrounding spaces) yields a line
whose text is `" hi "`, not its trimmed form. -/
theorem C6_counterexample :
    (parseCaptions [⟨" hi ", "7", "1"⟩]).map TranscriptLine.text = [" hi "]
      ∧ jsTrim " hi " ≠ " hi " := by
  decide

/-- C6, amended: every parsed line's text is exactly the HTML-entity
decoding of the cue's text content (no trimming), and its offset and
duration are the parsed attribute values scaled by 1000 — hence
non-negative whenever the attributes parse to non-negative values. -/
theorem C6_line_invariant (cues : List Cue) (i : Nat) (cue : Cue)
    (hcue : cues[i]? = some cue) :
    ∃ line, (parseCaptions cues)[i]? = some line
      ∧ line.text = decodeHTML cue.textContent
      ∧ line.offset = (parseFloatQ cue.start).map (· * 1000)
      ∧ line.duration = (parseFloatQ cue.dur).map (· * 1000)
      ∧ (∀ S : ℚ, parseFloatQ cue.start = some S → 0 ≤ S →
          ∃ q, line.offset = some q ∧ 0 ≤ q)
      ∧ (∀ D : ℚ, parseFloatQ cue.dur = some D → 0 ≤ D →
          ∃ q, line.duration = some q ∧ 0 ≤ q) := by
  refine ⟨⟨decodeHTML cue.textContent, (parseFloatQ cue.dur).map (· * 1000),
    (parseFloatQ cue.start).map (· * 1000)⟩, ?_, rfl, rfl, rfl, ?_, ?_⟩
  · simp [parseCaptions, List.getElem?_map, hcue]
  · intro S hS hSnn
    exact ⟨S * 1000, by simp [hS], mul_nonneg hSnn (by norm_num)⟩
  · intro D hD hDnn
    exact ⟨D * 1000, by simp [hD], mul_nonneg hDnn (by norm_num)⟩

/-- C6, witness: the amended invariant at the source's example cue. -/
theorem C6_witness :
    ∃ line, (parseCaptions [⟨"Hello", "0.5", "2.3"⟩])[(0 : Nat)]? = some line
      ∧ line.text = decodeHTML "Hello" := by
  obtain ⟨line, h1, h2, -, -, -, -⟩ :=
    C6_line_invariant [⟨"Hello", "0.5", "2.3"⟩] 0 ⟨"Hello", "0.5", "2.3"⟩ rfl
  exact ⟨line, h1, h2⟩

/-! ## C7 — video-id extraction is a leftmost-token scan -/

/-- `grabId n` succeeds exactly on lists starting with `n` ID-alphabet
characters, capturing them. -/
theorem grabId_eq_some_iff (n : Nat) :
    ∀ cs id : List Char, grabId n cs = some id ↔
      (id.length = n ∧ (∀ c ∈ id, isIdChar c = true) ∧ ∃ rest, cs = id ++ rest) := by
  induction n with
  | zero =>
    intro cs id
    simp only [grabId]
    constructor
    · intro h
      injection h with h
      subst h
      exact ⟨rfl, by simp, cs, rfl⟩
    · rintro ⟨hlen, -, rest, rfl⟩
      rw [List.length_eq_zero] at hlen
      subst hlen
      rfl
  | succ m ih =>
    intro cs id
    cases cs with
    | nil =>
      simp only [grabId]
      constructor
      · intro h
        exact absurd h (by simp)
      · rintro ⟨hlen, -, rest, hcs⟩
        obtain ⟨rfl, -⟩ := List.append_eq_nil.mp hcs.symm
        simp at hlen
    | cons c cs' =>
      by_cases hc : isIdChar c = true
      · rw [show grabId (m + 1) (c :: cs') = (grabId m cs').map (c :: ·) by
          simp [grabId, hc]]
        rw [Option.map_eq_some']
        constructor
        · rintro ⟨id', hid', rfl⟩
          obtain ⟨hlen, hall, rest, rfl⟩ := (ih cs' id').mp hid'
          refine ⟨by simp [hlen], ?_, rest, by simp⟩
          intro x hx
          rcases List.mem_cons.mp hx with rfl | hx
          · exact hc
          · exact hall x hx
        · rintro ⟨hlen, hall, rest, hcs⟩
          cases id with
          | nil => simp at hlen
          | cons y id' =>
            obtain ⟨rfl, hcs'⟩ : c = y ∧ cs' = id' ++ rest := by simpa using hcs
            exact ⟨id', (ih cs' id').mpr ⟨by simpa using hlen,
              fun x hx => hall x (by simp [hx]), rest, hcs'⟩, rfl⟩
      · rw [show grabId (m + 1) (c :: cs') = none by simp [grabId, hc]]
        constructor
        · intro h
          exact absurd h (by simp)
        · rintro ⟨hlen, hall, rest, hcs⟩
          cases id with
          | nil => simp at hlen
          | cons y id' =>
            obtain ⟨rfl, -⟩ : c = y ∧ cs' = id' ++ rest := by simpa using hcs
            exact absurd (hall c (by simp)) hc

/-- One anchored attempt of the regex succeeds exactly on the suffixes
described by `hasIdToken`, with the same capture. -/
theorem tryMatchVideoId_eq_some_iff (cs id : List Char) :
    tryMatchVideoId cs = some id ↔ hasIdToken cs id := by
  unfold hasIdToken
  cases cs with
  | nil =>
    constructor
    · intro h
      exact absurd h (by simp [tryMatchVideoId])
    · rintro ⟨-, -, rest, h | h⟩ <;> exact absurd h (by simp)
  | cons c rest =>
    by_cases hv : c = 'v'
    · subst hv
      cases rest with
      | nil =>
        constructor
        · intro h
          exact absurd h (by simp [tryMatchVideoId])
        · rintro ⟨-, -, r, h | h⟩ <;> simp at h
      | cons c2 rest2 =>
        by_cases he : c2 = '='
        · subst he
          rw [show tryMatchVideoId ('v' :: '=' :: rest2) = grabId 11 rest2 by
            simp [tryMatchVideoId]]
          rw [grabId_eq_some_iff]
          constructor
          · rintro ⟨hlen, hall, r, rfl⟩
            exact ⟨hlen, hall, r, Or.inl rfl⟩
          · rintro ⟨hlen, hall, r, h | h⟩
            · exact ⟨hlen, hall, r, by simpa using h⟩
            · simp at h
        · rw [show tryMatchVideoId ('v' :: c2 :: rest2) = none by
            simp [tryMatchVideoId, he]]
          constructor
          · intro h
            exact absurd h (by simp)
          · rintro ⟨-, -, r, h | h⟩
            · exact absurd ((by simpa using h : c2 = '=' ∧ rest2 = id ++ r).1) he
            · simp at h
    · by_cases hs : c = '/'
      · subst hs
        rw [show tryMatchVideoId ('/' :: rest) = grabId 11 rest by
          simp [tryMatchVideoId]]
        rw [grabId_eq_some_iff]
        constructor
        · rintro ⟨hlen, hall, r, rfl⟩
          exact ⟨hlen, hall, r, Or.inr rfl⟩
        · rintro ⟨hlen, hall, r, h | h⟩
          · simp at h
          · exact ⟨hlen, hall, r, by simpa using h⟩
      · rw [show tryMatchVideoId (c :: rest) = none by
          simp [tryMatchVideoId, hv, hs]]
        constructor
        · intro h
          exact absurd h (by simp)
        · rintro ⟨-, -, r, h | h⟩
          · exact absurd ((by simpa using h : c = 'v' ∧ rest = '=' :: (id ++ r)).1) hv
          · exact absurd ((by simpa using h : c = '/' ∧ rest = id ++ r).1) hs

/-- The scan returns `some id` exactly when some suffix carries a token
capturing `id` and no strictly earlier suffix carries any token. -/
theorem findVideoId_eq_some_iff :
    ∀ cs id : List Char, findVideoId cs = some id ↔
      ∃ n, hasIdToken (cs.drop n) id
        ∧ ∀ j < n, ∀ id', ¬ hasIdToken (cs.drop j) id' := by
  intro cs
  induction cs with
  | nil =>
    intro id
    constructor
    · intro h
      exact absurd h (by simp [findVideoId])
    · rintro ⟨n, htok, -⟩
      rw [List.drop_nil] at htok
      obtain ⟨-, -, r, h | h⟩ := htok <;> exact absurd h (by simp)
  | cons c cs' ih =>
    intro id
    cases hm : tryMatchVideoId (c :: cs') with
    | some r =>
      rw [show findVideoId (c :: cs') = some r by simp [findVideoId, hm]]
      constructor
      · intro h
        injection h with h
        subst h
        refine ⟨0, by simpa using (tryMatchVideoId_eq_some_iff _ _).mp hm, ?_⟩
        intro j hj id' _
        omega
      · rintro ⟨n, htok, hpre⟩
        cases n with
        | zero =>
          have h := (tryMatchVideoId_eq_some_iff (c :: cs') id).mpr (by simpa using htok)
          rw [hm] at h
          exact h
        | succ n' =>
          exact absurd ((tryMatchVideoId_eq_some_iff _ _).mp hm)
            (by simpa using hpre 0 (by omega) r)
    | none =>
      rw [show findVideoId (c :: cs') = findVideoId cs' by simp [findVideoId, hm]]
      rw [ih id]
      constructor
      · rintro ⟨n, htok, hpre⟩
        refine ⟨n + 1, by simpa using htok, ?_⟩
        intro j hj id' htok'
        cases j with
        | zero =>
          have h := (tryMatchVideoId_eq_some_iff (c :: cs') id').mpr (by simpa using htok')
          rw [hm] at h
          exact absurd h (by simp)
        | succ j' =>
          exact hpre j' (by omega) id' (by simpa using htok')
      · rintro ⟨n, htok, hpre⟩
        cases n with
        | zero =>
          have h := (tryMatchVideoId_eq_some_iff (c :: cs') id).mpr (by simpa using htok)
          rw [hm] at h
          exact absurd h (by simp)
        | succ n' =>
          exact ⟨n', by simpa using htok,
            fun j hj id' htok' => hpre (j + 1) (by omega) id' (by simpa using htok')⟩

/-- The scan fails exactly when no suffix carries a token. -/
theorem findVideoId_eq_none_iff :
    ∀ cs : List Char, findVideoId cs = none ↔
      ∀ n id, ¬ hasIdToken (cs.drop n) id := by
  intro cs
  induction cs with
  | nil =>
    constructor
    · intro _ n id htok
      rw [List.drop_nil] at htok
      obtain ⟨-, -, r, h | h⟩ := htok <;> exact absurd h (by simp)
    · intro _
      rfl
  | cons c cs' ih =>
    cases hm : tryMatchVideoId (c :: cs') with
    | some r =>
      rw [show findVideoId (c :: cs') = some r by simp [findVideoId, hm]]
      constructor
      · intro h
        exact absurd h (by simp)
      · intro hall
        exact absurd ((tryMatchVideoId_eq_some_iff _ _).mp hm)
          (by simpa using hall 0 r)
    | none =>
      rw [show findVideoId (c :: cs') = findVideoId cs' by simp [findVideoId, hm]]
      rw [ih]
      constructor
      · intro hall n id htok
        cases n with
        | zero =>
          have h := (tryMatchVideoId_eq_some_iff (c :: cs') id).mpr (by simpa using htok)
          rw [hm] at h
          exact absurd h (by simp)
        | succ n' =>
          exact hall n' id (by simpa using htok)
      · intro hall n id htok
        exact hall (n + 1) id (by simpa using htok)

/-- C7, counterexample: a watch URL in the accepted `?v=ID` form whose
hostname contains an 11-character label — extraction returns the
spurious leftmost token `subdomain11`, not the video id `dQw4w9WgXcQ`
carried by the `v=` parameter. -/
theorem C7_counterexample :
    extractVideoId "https://subdomain11.youtube.com/watch?v=dQw4w9WgXcQ"
        = some "subdomain11"
      ∧ containsSubstr "https://subdomain11.youtube.com/watch?v=dQw4w9WgXcQ".data
          "?v=dQw4w9WgXcQ".data = true
      ∧ ("dQw4w9WgXcQ" : String).length = 11
      ∧ "dQw4w9WgXcQ".data.all isIdChar = true
      ∧ ("subdomain11" : String) ≠ "dQw4w9WgXcQ" := by
  decide

/-- C7, amended: id extraction is the leftmost-token scan — it returns
the capture of the leftmost occurrence of `v=` or `/` followed by 11
ID-alphabet characters (for canonical watch/short URLs this is the
video id, but an earlier spurious token wins otherwise), and it fails
(InvalidUrl) exactly when the input contains no such token. -/
theorem C7_extractVideoId_leftmost (s : String) :
    (∀ id : List Char, findVideoId s.data = some id ↔
      ∃ n, hasIdToken (s.data.drop n) id
        ∧ ∀ j < n, ∀ id', ¬ hasIdToken (s.data.drop j) id')
    ∧ (extractVideoId s = none ↔ ∀ n id, ¬ hasIdToken (s.data.drop n) id) := by
  constructor
  · intro id
    exact findVideoId_eq_some_iff s.data id
  · rw [extractVideoId, Option.map_eq_none']
    exact findVideoId_eq_none_iff s.data

/-- C7, witness: on the canonical watch URL the leftmost token is the
`v=`-anchored one at position 30, so extraction returns the exact id. -/
theorem C7_witness :
    extractVideoId "https://www.youtube.com/watch?v=dQw4w9WgXcQ"
      = some "dQw4w9WgXcQ" := by
  have hall : ∀ j < 30, tryMatchVideoId
      (List.drop j "https://www.youtube.com/watch?v=dQw4w9WgXcQ".data) = none := by
    decide
  have hfind : findVideoId "https://www.youtube.com/watch?v=dQw4w9WgXcQ".data
      = some "dQw4w9WgXcQ".data := by
    refine ((C7_extractVideoId_leftmost "https://www.youtube.com/watch?v=dQw4w9WgXcQ").1
      "dQw4w9WgXcQ".data).mpr ⟨30, ⟨by decide, by decide, [], Or.inl (by decide)⟩, ?_⟩
    intro j hj id' htok
    have h := (tryMatchVideoId_eq_some_iff _ _).mpr htok
    rw [hall j hj] at h
    exact absurd h (by simp)
  rw [extractVideoId, hfind]
  rfl

end YT
